import Mathlib

/-!
Verification development for the diary/memories CRUD backend (src/index.js).

The service is shallowly embedded: the PostgreSQL tables `memories` and
`memory_images` become lists of records, each Express route handler becomes a
pure function from a database state and a request to a response and a new
state, and the BEGIN/COMMIT/ROLLBACK transaction discipline is captured by an
explicit failure oracle: every `client.query` call consumes one oracle index,
and if the oracle reports an infrastructure failure (or the query fails
logically, e.g. a duplicate primary key), the whole transaction yields the
untouched original state, exactly as the catch-and-ROLLBACK blocks of the
handlers do.

All definitions are translated from src/index.js and the documented behavior
of its direct collaborators (the `uuid` validate regex, multer fileFilter and
size limit, Node `path.extname`, base64 encoding used by `Buffer`).
-/

namespace Diary

/-! ## Small JavaScript helpers -/

/-- Whitespace as used by JSON and by string trimming (ASCII fragment). -/
def isWsChar (c : Char) : Bool :=
  c = ' ' || c = '\t' || c = '\n' || c = '\r'

/-- JavaScript truthiness test for an optional string field of `req.body`:
`undefined`, `null` and the empty string are falsy. -/
def jsFalsy : Option String → Bool
  | none => true
  | some s => s = ""

/-- The JavaScript `a || b` idiom on an optional string: the default is taken
exactly when the field is absent or empty. -/
def jsOr (v : Option String) (d : String) : String :=
  match v with
  | none => d
  | some s => if s = "" then d else s

/-- Drop whitespace from both ends of a character list (JS `String.trim` on
the ASCII fragment). -/
def trimChars (cs : List Char) : List Char :=
  ((cs.dropWhile isWsChar).reverse.dropWhile isWsChar).reverse

/-- JS `s.split(",")` on a character list. On the empty string it yields one
empty piece, as in JavaScript. -/
def splitComma (acc : List Char) : List Char → List (List Char)
  | [] => [acc.reverse]
  | c :: cs => if c = ',' then acc.reverse :: splitComma [] cs else splitComma (c :: acc) cs

/-- The comma split with trimming from the two tag-parsing blocks. -/
def splitTrim (s : String) : List String :=
  (splitComma [] s.toList).map (fun cs => String.mk (trimChars cs))

/-! ## UUID validation (the `uuid` package `validate` regex) -/

def isHexDigit (c : Char) : Bool :=
  ('0' ≤ c && c ≤ '9') || ('a' ≤ c && c ≤ 'f') || ('A' ≤ c && c ≤ 'F')

/-- Shape of character `c` at position `i` of a textual UUID: hyphens at
positions 8, 13, 18, 23, a version digit 1-5 at position 14, a variant digit
in 8, 9, a, b at position 19, hex digits elsewhere. -/
def uuidCharOk (i : Nat) (c : Char) : Bool :=
  if i = 8 || i = 13 || i = 18 || i = 23 then c = '-'
  else if i = 14 then c = '1' || c = '2' || c = '3' || c = '4' || c = '5'
  else if i = 19 then
    c = '8' || c = '9' || c = 'a' || c = 'b' || c = 'A' || c = 'B'
  else isHexDigit c

/-- Validation regex of the `uuid` package `validate` function: the anchored
RFC 4122 shape, with
the nil UUID accepted as a special case. -/
def uuidValidate (s : String) : Bool :=
  s = "00000000-0000-0000-0000-000000000000" ||
  (s.length = 36 && s.toList.enum.all fun p => uuidCharOk p.1 p.2)

/-- Helper `ensureValidUUID` (src/index.js lines 194-199): a missing, empty or
invalid id is replaced by a freshly generated UUID.  The fresh UUID produced
by `uuidv4()` is passed in as the `fresh` argument. -/
def ensureValidUUID (id : Option String) (fresh : String) : String :=
  if jsFalsy id || !uuidValidate (id.getD "") then fresh else id.getD ""

/-! ## A JSON value parser

`JSON.parse` is applied to the `tags` field when it arrives as a string; if
it throws, the code falls back to a comma split.  The parser below is a
recursive-descent embedding of the JSON grammar (values, arrays, objects,
strings with escapes, number tokens kept as their source text), with a fuel
argument; `jsonParse` succeeds only when the whole input is consumed. -/

inductive Json where
  | null
  | bool (b : Bool)
  | num (tok : String)
  | str (s : String)
  | arr (xs : List Json)
  | obj (fields : List (String × Json))

def skipWs : List Char → List Char
  | [] => []
  | c :: cs => if isWsChar c then skipWs cs else c :: cs

def hexVal (c : Char) : Option Nat :=
  if '0' ≤ c && c ≤ '9' then some (c.toNat - 48)
  else if 'a' ≤ c && c ≤ 'f' then some (c.toNat - 87)
  else if 'A' ≤ c && c ≤ 'F' then some (c.toNat - 55)
  else none

/-- Body of a JSON string literal, after the opening quote; returns the
decoded string and the input after the closing quote. -/
def parseStrBody (fuel : Nat) (cs : List Char) : Option (String × List Char) :=
  match fuel, cs with
  | 0, _ => none
  | _, [] => none
  | fuel + 1, c :: rest =>
    if c = '"' then some ("", rest)
    else if c = '\\' then
      match rest with
      | [] => none
      | e :: rest2 =>
        let dec : Option (Char × List Char) :=
          if e = '"' then some ('"', rest2)
          else if e = '\\' then some ('\\', rest2)
          else if e = '/' then some ('/', rest2)
          else if e = 'b' then some (Char.ofNat 8, rest2)
          else if e = 'f' then some (Char.ofNat 12, rest2)
          else if e = 'n' then some ('\n', rest2)
          else if e = 'r' then some ('\r', rest2)
          else if e = 't' then some ('\t', rest2)
          else if e = 'u' then
            match rest2 with
            | h1 :: h2 :: h3 :: h4 :: rest3 =>
              match hexVal h1, hexVal h2, hexVal h3, hexVal h4 with
              | some a, some b, some c2, some d =>
                some (Char.ofNat (a * 4096 + b * 256 + c2 * 16 + d), rest3)
              | _, _, _, _ => none
            | _ => none
          else none
        match dec with
        | none => none
        | some (ch, rest3) =>
          match parseStrBody fuel rest3 with
          | none => none
          | some (s, fin) => some (String.mk (ch :: s.toList), fin)
    else if c.toNat < 32 then none
    else
      match parseStrBody fuel rest with
      | none => none
      | some (s, fin) => some (String.mk (c :: s.toList), fin)

/-- Take a maximal run of decimal digits. -/
def takeDigits : List Char → List Char × List Char
  | [] => ([], [])
  | c :: cs =>
    if c.isDigit then
      let p := takeDigits cs
      (c :: p.1, p.2)
    else ([], c :: cs)

def parseIntPart : List Char → Option (List Char × List Char)
  | [] => none
  | c :: cs =>
    if c = '0' then some ([c], cs)
    else if c.isDigit then
      let p := takeDigits cs
      some (c :: p.1, p.2)
    else none

def parseFracPart : List Char → Option (List Char × List Char)
  | '.' :: cs =>
    let p := takeDigits cs
    if p.1.isEmpty then none else some ('.' :: p.1, p.2)
  | cs => some ([], cs)

def parseExpPart : List Char → Option (List Char × List Char)
  | [] => some ([], [])
  | c :: cs =>
    if c = 'e' || c = 'E' then
      let sp : List Char × List Char :=
        match cs with
        | s :: t => if s = '+' || s = '-' then ([s], t) else ([], s :: t)
        | [] => ([], [])
      let p := takeDigits sp.2
      if p.1.isEmpty then none else some (c :: (sp.1 ++ p.1), p.2)
    else some ([], c :: cs)

/-- A JSON number token, kept as its source text. -/
def parseNumTok (cs : List Char) : Option (List Char × List Char) :=
  let sp : List Char × List Char :=
    match cs with
    | c :: t => if c = '-' then ([c], t) else ([], c :: t)
    | [] => ([], [])
  match parseIntPart sp.2 with
  | none => none
  | some (ip, r1) =>
    match parseFracPart r1 with
    | none => none
    | some (fp, r2) =>
      match parseExpPart r2 with
      | none => none
      | some (ep, r3) => some (sp.1 ++ ip ++ fp ++ ep, r3)

mutual

def parseVal : Nat → List Char → Option (Json × List Char)
  | 0, _ => none
  | fuel + 1, cs =>
    match skipWs cs with
    | [] => none
    | c :: rest =>
      if c = '"' then
        (parseStrBody (rest.length + 1) rest).map fun p => (Json.str p.1, p.2)
      else if c = '[' then
        match skipWs rest with
        | ']' :: r => some (Json.arr [], r)
        | cs2 => (parseArrItems fuel cs2).map fun p => (Json.arr p.1, p.2)
      else if c = '{' then
        match skipWs rest with
        | '}' :: r => some (Json.obj [], r)
        | cs2 => (parseObjItems fuel cs2).map fun p => (Json.obj p.1, p.2)
      else if c = 't' then
        match rest with
        | 'r' :: 'u' :: 'e' :: r => some (Json.bool true, r)
        | _ => none
      else if c = 'f' then
        match rest with
        | 'a' :: 'l' :: 's' :: 'e' :: r => some (Json.bool false, r)
        | _ => none
      else if c = 'n' then
        match rest with
        | 'u' :: 'l' :: 'l' :: r => some (Json.null, r)
        | _ => none
      else
        match parseNumTok (c :: rest) with
        | some (tok, r) => some (Json.num (String.mk tok), r)
        | none => none

def parseArrItems : Nat → List Char → Option (List Json × List Char)
  | 0, _ => none
  | fuel + 1, cs =>
    match parseVal fuel cs with
    | none => none
    | some (v, r) =>
      match skipWs r with
      | ']' :: r2 => some ([v], r2)
      | ',' :: r2 =>
        match parseArrItems fuel r2 with
        | none => none
        | some (vs, r3) => some (v :: vs, r3)
      | _ => none

def parseObjItems : Nat → List Char → Option (List (String × Json) × List Char)
  | 0, _ => none
  | fuel + 1, cs =>
    match skipWs cs with
    | '"' :: rest =>
      match parseStrBody (rest.length + 1) rest with
      | none => none
      | some (k, r) =>
        match skipWs r with
        | ':' :: r2 =>
          match parseVal fuel r2 with
          | none => none
          | some (v, r3) =>
            match skipWs r3 with
            | '}' :: r4 => some ([(k, v)], r4)
            | ',' :: r4 =>
              match parseObjItems fuel r4 with
              | none => none
              | some (ms, r5) => some ((k, v) :: ms, r5)
            | _ => none
        | _ => none
    | _ => none

end

/-- Entry point matching `JSON.parse`: parse one value and require the rest of
the input to be
whitespace. -/
def jsonParse (s : String) : Option Json :=
  match parseVal (s.length + 1) s.toList with
  | none => none
  | some (v, rest) => if (skipWs rest).isEmpty then some v else none

/-! ## The tags pipeline -/

/-- The `tags` field of a request body: absent, a string, or already an
array of strings (a JSON body can carry a genuine array). -/
inductive TagsField where
  | absent
  | strv (s : String)
  | arrv (xs : List String)
deriving DecidableEq

/-- Extract a JavaScript array of strings from a parsed JSON value. -/
def jsonToTags : Json → Option (List String)
  | Json.arr xs =>
    xs.mapM fun v =>
      match v with
      | Json.str s => some s
      | _ => none
  | _ => none

/-- Tags handling of POST /api/memories (lines 239-245): if `tags` is a
string, `JSON.parse` it and on failure fall back to a comma split; the result
is handed to the SQL INSERT for the `TEXT[]` column.  A successfully parsed
JSON value that is not an array of strings is modelled as a storage error at
insert time (the pg driver cannot serialize it for `TEXT[]`). -/
def tagsPost : TagsField → Except Unit (Option (List String))
  | .absent => .ok none
  | .arrv xs => .ok (some xs)
  | .strv s =>
    match jsonParse s with
    | some v =>
      match jsonToTags v with
      | some xs => .ok (some xs)
      | none => .error ()
    | none => .ok (some (splitTrim s))

/-- Tags handling of PUT /api/memories/:id (lines 354-366): same parse, but
afterwards any non-array value is coerced to the empty array by the
`Array.isArray` guard.  A JSON array containing non-string elements is
modelled as a storage error, as in `tagsPost`. -/
def tagsPut : TagsField → Except Unit (List String)
  | .absent => .ok []
  | .arrv xs => .ok xs
  | .strv s =>
    match jsonParse s with
    | some v =>
      match jsonToTags v with
      | some xs => .ok xs
      | none =>
        match v with
        | Json.arr _ => .error ()
        | _ => .ok []
    | none => .ok (splitTrim s)

/-! ## Base64 (Node Buffer `toString("base64")` and `Buffer.from(s, "base64")`) -/

/-- The base64 alphabet. -/
def b64Char (n : Nat) : Char :=
  if n < 26 then Char.ofNat (65 + n)
  else if n < 52 then Char.ofNat (97 + (n - 26))
  else if n < 62 then Char.ofNat (48 + (n - 52))
  else if n = 62 then '+'
  else '/'

def b64Val (c : Char) : Nat :=
  if 'A' ≤ c && c ≤ 'Z' then c.toNat - 65
  else if 'a' ≤ c && c ≤ 'z' then c.toNat - 97 + 26
  else if '0' ≤ c && c ≤ '9' then c.toNat - 48 + 52
  else if c = '+' then 62
  else 63

/-- Base64 encoding of a byte list, with `=` padding, as produced by
`req.file.buffer.toString("base64")`. -/
def base64Encode : List Nat → List Char
  | [] => []
  | [a] => [b64Char (a / 4), b64Char (a % 4 * 16), '=', '=']
  | [a, b] => [b64Char (a / 4), b64Char (a % 4 * 16 + b / 16), b64Char (b % 16 * 4), '=']
  | a :: b :: c :: rest =>
    b64Char (a / 4) :: b64Char (a % 4 * 16 + b / 16) ::
      b64Char (b % 16 * 4 + c / 64) :: b64Char (c % 64) :: base64Encode rest

/-- Base64 decoding of a well-formed padded base64 text, as performed by
`Buffer.from(image_data, "base64")` in the image route. -/
def base64Decode : List Char → List Nat
  | c1 :: c2 :: c3 :: c4 :: rest =>
    if c3 = '=' then [b64Val c1 * 4 + b64Val c2 / 16]
    else if c4 = '=' then
      [b64Val c1 * 4 + b64Val c2 / 16, b64Val c2 % 16 * 16 + b64Val c3 / 4]
    else
      (b64Val c1 * 4 + b64Val c2 / 16) ::
        (b64Val c2 % 16 * 16 + b64Val c3 / 4) ::
        (b64Val c3 % 4 * 64 + b64Val c4) :: base64Decode rest
  | _ => []

/-! ## The upload handler (multer memory storage, lines 16-31) -/

/-- An uploaded file as multer presents it: original filename, declared MIME
type, and the in-memory byte buffer. -/
structure UploadFile where
  originalname : String
  mimetype : String
  buffer : List Nat
deriving DecidableEq

/-- Is `tok` a contiguous substring of `hay` starting at the head? -/
def leadMatch : List Char → List Char → Bool
  | [], _ => true
  | _ :: _, [] => false
  | a :: as, b :: bs => a = b && leadMatch as bs

/-- Is `tok` a contiguous substring of `hay` anywhere?  (`RegExp.test` with
an unanchored literal alternative.) -/
def containsTok (hay tok : List Char) : Bool :=
  match hay with
  | [] => tok.isEmpty
  | _ :: t => leadMatch tok hay || containsTok t tok

/-- The regex `/jpeg|jpg|png|gif|webp/` of the multer fileFilter: `test`
succeeds when any alternative occurs as a substring. -/
def filetypesTest (s : String) : Bool :=
  ["jpeg", "jpg", "png", "gif", "webp"].any fun t => containsTok s.toList t.toList

/-- The basename part of a path (after the last slash). -/
def basenameChars (cs : List Char) : List Char :=
  (cs.reverse.takeWhile (fun c => c ≠ '/')).reverse

/-- Node `path.extname` on an ordinary filename: the segment of the basename
from the last dot to the end; empty when there is no dot or when the only
dot is the leading character. -/
def extnameFrom (cs : List Char) : List Char :=
  match basenameChars cs with
  | [] => []
  | _ :: rest =>
    let extRev := rest.reverse.takeWhile (fun c => c ≠ '.')
    if extRev.length = rest.length then [] else '.' :: extRev.reverse

/-- The lowercased extension of an uploaded file, as in
`path.extname(file.originalname).toLowerCase()`. -/
def lowerExt (f : UploadFile) : String :=
  String.mk ((extnameFrom f.originalname.toList).map Char.toLower)

/-- The multer fileFilter (lines 21-30): both the declared MIME type and the
lowercased extension must pass the substring regex test. -/
def fileFilterOk (f : UploadFile) : Bool :=
  filetypesTest f.mimetype && filetypesTest (lowerExt f)

inductive UploadError where
  | badType
  | tooLarge
deriving DecidableEq

/-- The whole upload middleware: fileFilter plus the 5 MiB `fileSize` limit.
A rejection aborts the request before the route handler (and hence before
any database interaction) runs. -/
def uploadCheck : Option UploadFile → Option UploadError
  | none => none
  | some f =>
    if !fileFilterOk f then some .badType
    else if 5 * 1024 * 1024 < f.buffer.length then some .tooLarge
    else none

/-- Extension allow-list as the specification words it: the extension itself
must be one of the five allowed image extensions.  This is the spec-side
reading, to be compared with the substring test the code actually performs. -/
def specExtAllowed (f : UploadFile) : Bool :=
  [".jpeg", ".jpg", ".png", ".gif", ".webp"].contains (lowerExt f)

/-! ## Data model: the `memories` and `memory_images` tables -/

/-- A row of the `memories` table.  `title`, `content` and `date` are NOT
NULL; `mood` and `tags` are nullable; `has_image` has default false and is
always written explicitly by the routes.  Timestamps are kept as the strings
the service hands to the driver. -/
structure MemRow where
  id : String
  title : String
  content : String
  date : String
  mood : Option String
  tags : Option (List String)
  has_image : Bool
deriving DecidableEq

/-- A row of the `memory_images` table (minus the SERIAL key and created_at,
which no route reads): the owning memory id, the base64 text payload of the
`image_data` TEXT column, and the MIME type. -/
structure ImageRow where
  memory_id : String
  image_data : List Char
  image_mime : String
deriving DecidableEq

/-- The database state: both tables, in insertion order. -/
structure DBState where
  memories : List MemRow
  images : List ImageRow
deriving DecidableEq

def DBState.empty : DBState := ⟨[], []⟩

def hasId (st : DBState) (id : String) : Bool :=
  st.memories.any fun m => m.id = id

def findMem (st : DBState) (id : String) : Option MemRow :=
  st.memories.find? fun m => m.id = id

def findImage (st : DBState) (id : String) : Option ImageRow :=
  st.images.find? fun r => r.memory_id = id

/-- The statement `INSERT INTO memories ... RETURNING *`: fails on a duplicate
primary key
or a NULL in a NOT NULL column, otherwise appends the row and returns it.
(`id` always comes out of `ensureValidUUID`, so the UUID column accepts it.) -/
def insertMemory (st : DBState) (id : String) (title content date : Option String)
    (mood : Option String) (tags : Option (List String)) (hasImage : Bool) :
    Option (MemRow × DBState) :=
  match title, content, date with
  | some t, some c, some d =>
    if hasId st id then none
    else
      let row : MemRow := ⟨id, t, c, d, mood, tags, hasImage⟩
      some (row, ⟨st.memories ++ [row], st.images⟩)
  | _, _, _ => none

/-- The statement `INSERT INTO memory_images`: the foreign key requires the
owning memory
row to exist. -/
def insertImage (st : DBState) (id : String) (data : List Char) (mime : String) :
    Option DBState :=
  if hasId st id then some ⟨st.memories, st.images ++ [⟨id, data, mime⟩]⟩ else none

/-- The statement `DELETE FROM memory_images WHERE memory_id = $1`. -/
def deleteImagesFor (st : DBState) (id : String) : DBState :=
  ⟨st.memories, st.images.filter fun r => r.memory_id ≠ id⟩

/-- The statement `DELETE FROM memories WHERE id = $1 RETURNING *`, with the
`ON DELETE CASCADE` foreign key also removing the referencing
`memory_images` rows.  Returns the deleted rows and the new state. -/
def deleteMemory (st : DBState) (id : String) : List MemRow × DBState :=
  (st.memories.filter (fun m => m.id = id),
   ⟨st.memories.filter (fun m => m.id ≠ id),
    st.images.filter (fun r => r.memory_id ≠ id)⟩)

/-- The statement `UPDATE memories SET ... WHERE id = $7 RETURNING *`: rewrite
every
matching row (the primary key makes it at most one) and return the first
updated row. -/
def updateMemoryRow (st : DBState) (id : String) (title content date mood : String)
    (tags : List String) (hasImage : Bool) : Option MemRow × DBState :=
  let ms := st.memories.map fun m =>
    if m.id = id then ⟨m.id, title, content, date, some mood, some tags, hasImage⟩ else m
  (ms.find? (fun m => m.id = id), ⟨ms, st.images⟩)

/-! ## Requests, responses, and the transaction failure oracle -/

/-- A generic body field as JavaScript sees it (used for `deleteImage`,
which a JSON body can carry as a boolean while a multipart body always
carries strings). -/
inductive JsField where
  | und
  | strv (s : String)
  | boolv (b : Bool)
deriving DecidableEq

/-- Body and file of POST /api/memories. -/
structure PostReq where
  id : Option String
  title : Option String
  content : Option String
  date : Option String
  mood : Option String
  tags : TagsField
  file : Option UploadFile
deriving DecidableEq

/-- Body and file of PUT /api/memories/:id. -/
structure PutReq where
  title : Option String
  content : Option String
  date : Option String
  mood : Option String
  tags : TagsField
  deleteImage : JsField
  file : Option UploadFile
deriving DecidableEq

/-- The response a route sends. -/
inductive Resp where
  | okMem (m : MemRow)
  | created (m : MemRow)
  | okDeleted
  | okImage (bytes : List Nat) (mime : String)
  | notFound
  | badRequest
  | uploadRejected (e : UploadError)
  | serverError
deriving DecidableEq

/-- HTTP status of a response.  An upload rejection surfaces through the
Express default error handler, which maps a plain Error to 500 (the code
installs no error-mapping middleware). -/
def Resp.status : Resp → Nat
  | .okMem _ => 200
  | .created _ => 201
  | .okDeleted => 200
  | .okImage _ _ => 200
  | .notFound => 404
  | .badRequest => 400
  | .uploadRejected _ => 500
  | .serverError => 500

/-- Infrastructure failure oracle: `ora n = true` means the n-th
`client.query` call of the handler fails (connection loss, etc.).  Any such
failure lands in the catch block, which issues ROLLBACK. -/
abbrev Oracle := Nat → Bool

/-- The oracle under which every query succeeds. -/
def noFail : Oracle := fun _ => false

/-! ## The routes -/

/-- GET /api/memories/:id (lines 214-227): normalize the id, look it up,
404 when absent. -/
def getMemoryRoute (st : DBState) (idParam : String) (fresh : String) : Resp :=
  match findMem st (ensureValidUUID (some idParam) fresh) with
  | none => Resp.notFound
  | some m => Resp.okMem m

/-- GET /api/images/:id (lines 55-97): 400 for an invalid UUID, else fetch
the asset, decode the stored base64 text, and answer with the stored MIME
type; 404 when no asset exists. -/
def getImageRoute (st : DBState) (idParam : String) : Resp :=
  if !uuidValidate idParam then Resp.badRequest
  else
    match findImage st idParam with
    | none => Resp.notFound
    | some r => Resp.okImage (base64Decode r.image_data) r.image_mime

/-- The transaction body of POST /api/memories (lines 230-309).  Query
indices: 0 BEGIN, 1 information_schema column check, 2 INSERT INTO memories,
3 CREATE TABLE IF NOT EXISTS, 4 INSERT INTO memory_images, 5 COMMIT.
`none` means the catch block ran and ROLLBACK discarded every step. -/
def postTxn (st : DBState) (req : PostReq) (ora : Oracle) (fresh : String) :
    Option (MemRow × DBState) :=
  if ora 0 then none
  else if ora 1 then none
  else if ora 2 then none
  else
    match tagsPost req.tags with
    | .error _ => none
    | .ok tv =>
      match insertMemory st (ensureValidUUID req.id fresh) req.title req.content
          req.date req.mood tv req.file.isSome with
      | none => none
      | some (row, st1) =>
        match req.file with
        | none => if ora 5 then none else some (row, st1)
        | some f =>
          if ora 3 then none
          else if ora 4 then none
          else
            match insertImage st1 (ensureValidUUID req.id fresh)
                (base64Encode f.buffer) f.mimetype with
            | none => none
            | some st2 => if ora 5 then none else some (row, st2)

/-- POST /api/memories, upload middleware included. -/
def postRoute (st : DBState) (req : PostReq) (ora : Oracle) (fresh : String) :
    Resp × DBState :=
  match uploadCheck req.file with
  | some e => (Resp.uploadRejected e, st)
  | none =>
    match postTxn st req ora fresh with
    | none => (Resp.serverError, st)
    | some (row, st2) => (Resp.created row, st2)

/-- Outcome of the PUT transaction body: explicit 404 rollback, or commit. -/
inductive PutOut where
  | rolledBack404
  | committed (m : MemRow) (st : DBState)
deriving DecidableEq

/-- The image branch of PUT /api/memories/:id (lines 374-411), in priority
order: a new file replaces any existing asset; else the strict string equality
of deleteImage with "true"
check removes it; else the current `has_image` flag is read back and the
asset is untouched.  Returns the `hasImage` value for the UPDATE plus the
state after the branch queries. -/
def putImgStep (st : DBState) (id : String) (req : PutReq) (ora : Oracle) :
    Option (Bool × DBState) :=
  match req.file with
  | some f =>
    if ora 3 then none
    else if ora 4 then none
    else if ora 5 then none
    else
      (insertImage (deleteImagesFor st id) id (base64Encode f.buffer)
        f.mimetype).map fun s => (true, s)
  | none =>
    if req.deleteImage = JsField.strv "true" then
      if ora 3 then none else some (false, deleteImagesFor st id)
    else if ora 3 then none
    else some (((findMem st id).map MemRow.has_image).getD false, st)

/-- The transaction body of PUT /api/memories/:id (lines 312-434).  Query
indices: 0 BEGIN, 1 SELECT id (existence check), 2 column check, 3-5 the
image branch queries, 6 UPDATE memories, 7 COMMIT. -/
def putTxn (st : DBState) (idParam : String) (req : PutReq) (ora : Oracle)
    (fresh now : String) : Option PutOut :=
  if ora 0 then none
  else if ora 1 then none
  else if !hasId st (ensureValidUUID (some idParam) fresh) then some PutOut.rolledBack404
  else if ora 2 then none
  else
    match tagsPut req.tags with
    | .error _ => none
    | .ok tags =>
      match putImgStep st (ensureValidUUID (some idParam) fresh) req ora with
      | none => none
      | some (hasImage, st1) =>
        if ora 6 then none
        else
          match updateMemoryRow st1 (ensureValidUUID (some idParam) fresh)
              (jsOr req.title "") (jsOr req.content "") (jsOr req.date now)
              (jsOr req.mood "happy") tags hasImage with
          | (none, _) => none
          | (some row, st2) =>
            if ora 7 then none else some (PutOut.committed row st2)

/-- PUT /api/memories/:id, upload middleware included.  `now` stands for
`new Date().toISOString()`. -/
def putRoute (st : DBState) (idParam : String) (req : PutReq) (ora : Oracle)
    (fresh now : String) : Resp × DBState :=
  match uploadCheck req.file with
  | some e => (Resp.uploadRejected e, st)
  | none =>
    match putTxn st idParam req ora fresh now with
    | none => (Resp.serverError, st)
    | some PutOut.rolledBack404 => (Resp.notFound, st)
    | some (PutOut.committed row st2) => (Resp.okMem row, st2)

/-- Outcome of the DELETE transaction body. -/
inductive DelOut where
  | rolledBack404
  | committed (st : DBState)
deriving DecidableEq

/-- The transaction body of DELETE /api/memories/:id (lines 437-464).
Query indices: 0 BEGIN, 1 DELETE RETURNING, 2 COMMIT.  An empty RETURNING
set triggers the explicit 404 rollback. -/
def deleteTxn (st : DBState) (idParam : String) (ora : Oracle) (fresh : String) :
    Option DelOut :=
  if ora 0 then none
  else if ora 1 then none
  else if (deleteMemory st (ensureValidUUID (some idParam) fresh)).1.isEmpty then
    some DelOut.rolledBack404
  else if ora 2 then none
  else some (DelOut.committed (deleteMemory st (ensureValidUUID (some idParam) fresh)).2)

/-- DELETE /api/memories/:id. -/
def deleteRoute (st : DBState) (idParam : String) (ora : Oracle) (fresh : String) :
    Resp × DBState :=
  match deleteTxn st idParam ora fresh with
  | none => (Resp.serverError, st)
  | some DelOut.rolledBack404 => (Resp.notFound, st)
  | some (DelOut.committed st2) => (Resp.okDeleted, st2)

/-! ## Reachable states and the state invariant -/

/-- The invariant tying the two tables together: primary-key uniqueness,
stored ids are valid UUIDs, the foreign key from assets to entries, and the
`has_image` flag reflecting asset existence. -/
def Inv (st : DBState) : Prop :=
  st.memories.Pairwise (fun a b => a.id ≠ b.id) ∧
  (∀ m ∈ st.memories, uuidValidate m.id = true) ∧
  (∀ r ∈ st.images, ∃ m ∈ st.memories, m.id = r.memory_id) ∧
  (∀ m ∈ st.memories, (m.has_image = true ↔ ∃ r ∈ st.images, r.memory_id = m.id))

/-- States reachable from the empty database by the public write operations,
under arbitrary requests and failure oracles; `uuidv4` always produces a
valid UUID, hence the hypotheses on `fresh`. -/
inductive Reachable : DBState → Prop where
  | init : Reachable DBState.empty
  | post (st : DBState) (req : PostReq) (ora : Oracle) (fresh : String)
      (hst : Reachable st) (hf : uuidValidate fresh = true) :
      Reachable (postRoute st req ora fresh).2
  | put (st : DBState) (idParam : String) (req : PutReq) (ora : Oracle)
      (fresh now : String) (hst : Reachable st) (hf : uuidValidate fresh = true) :
      Reachable (putRoute st idParam req ora fresh now).2
  | del (st : DBState) (idParam : String) (ora : Oracle) (fresh : String)
      (hst : Reachable st) (hf : uuidValidate fresh = true) :
      Reachable (deleteRoute st idParam ora fresh).2

/-! ## Witness material -/

/-- A concrete valid v4 UUID, used as the output of `uuidv4()` in witnesses. -/
def wFresh : String := "9f8b1c2d-3e4f-4a5b-8c6d-7e8f9a0b1c2d"

/-- A second concrete valid v4 UUID. -/
def wIdA : String := "123e4567-e89b-42d3-a456-426614174000"

/-- A well-formed uploaded PNG file for witnesses. -/
def wFile : UploadFile := ⟨"p.png", "image/png", [0, 255, 10]⟩

/-- The counterexample file for claim C4: its extension `.mypngfile` is not
in the allow-list, yet contains `png` as a substring. -/
def cxFile : UploadFile := ⟨"photo.mypngfile", "image/png", [1, 2, 3]⟩

/-- The counterexample create request for claim C4. -/
def cxReq : PostReq :=
  ⟨none, some "t", some "c", some "2024-05-01", none, TagsField.absent, some cxFile⟩

/-- A fixed stand-in for `new Date().toISOString()` in witnesses. -/
def wNow : String := "2024-01-01T00:00:00.000Z"

/-- An update request that omits every field. -/
def wPutReqNone : PutReq := ⟨none, none, none, none, TagsField.absent, JsField.und, none⟩

/-- A stored entry whose every field differs from the update defaults. -/
def wRowOld : MemRow := ⟨wIdA, "old title", "old content", "2020-01-01", some "sad", some ["x"], false⟩

def wStOne : DBState := ⟨[wRowOld], []⟩

/-- The entry produced by the full-replace update of `wPutReqNone`. -/
def wRowNew : MemRow := ⟨wIdA, "", "", wNow, some "happy", some [], false⟩

def wStNew : DBState := ⟨[wRowNew], []⟩

/-- An update request carrying a new image. -/
def wPutReqImg : PutReq :=
  ⟨some "new", some "c2", some "2021-02-02", some "calm", TagsField.absent, JsField.und, some wFile⟩

def wRowImg : MemRow := ⟨wIdA, "new", "c2", "2021-02-02", some "calm", some [], true⟩

def wStImg : DBState := ⟨[wRowImg], [⟨wIdA, base64Encode wFile.buffer, wFile.mimetype⟩]⟩

/-- A stored entry that has an image, plus its asset row. -/
def wRowHasImg : MemRow := ⟨wIdA, "t", "c", "2020-01-01", some "happy", some [], true⟩

def wImgRow : ImageRow := ⟨wIdA, base64Encode [7], "image/png"⟩

def wStImgPre : DBState := ⟨[wRowHasImg], [wImgRow]⟩

/-- An update request with `deleteImage` carrying the JSON boolean true. -/
def wPutReqKeep : PutReq := ⟨none, none, none, none, TagsField.absent, JsField.boolv true, none⟩

def wRowKeep : MemRow := ⟨wIdA, "", "", wNow, some "happy", some [], true⟩

def wStKeep : DBState := ⟨[wRowKeep], [wImgRow]⟩

/-- A create request with an image and a comma-separated tags string. -/
def wPostReqImg : PostReq :=
  ⟨none, some "t", some "c", some "2024-05-01", some "happy", TagsField.strv "a,b", some wFile⟩

def wRowPost : MemRow := ⟨wFresh, "t", "c", "2024-05-01", some "happy", some ["a", "b"], true⟩

def wStPost : DBState := ⟨[wRowPost], [⟨wFresh, base64Encode wFile.buffer, wFile.mimetype⟩]⟩

/-! ## Base64 lemmas -/

theorem b64Val_b64Char : ∀ n, n < 64 → b64Val (b64Char n) = n := by decide

theorem b64Char_ne_pad : ∀ n, n < 64 → b64Char n ≠ '=' := by decide

/-- Decoding inverts encoding on byte lists. -/
theorem base64_decode_encode :
    ∀ bs : List Nat, (∀ b ∈ bs, b < 256) → base64Decode (base64Encode bs) = bs
  | [], _ => rfl
  | [a], h => by
    have ha : a < 256 := h a (by simp)
    have h1 := b64Val_b64Char (a / 4) (by omega)
    have h2 := b64Val_b64Char (a % 4 * 16) (by omega)
    simp only [base64Encode, base64Decode, reduceIte, h1, h2, List.cons.injEq,
      and_true]
    omega
  | [a, b], h => by
    have ha : a < 256 := h a (by simp)
    have hb : b < 256 := h b (by simp)
    have hne : b64Char (b % 16 * 4) ≠ '=' := b64Char_ne_pad _ (by omega)
    have h1 := b64Val_b64Char (a / 4) (by omega)
    have h2 := b64Val_b64Char (a % 4 * 16 + b / 16) (by omega)
    have h3 := b64Val_b64Char (b % 16 * 4) (by omega)
    simp only [base64Encode, base64Decode, hne, reduceIte, if_false, h1, h2, h3,
      List.cons.injEq, and_true]
    omega
  | a :: b :: c :: rest, h => by
    have ha : a < 256 := h a (by simp)
    have hb : b < 256 := h b (by simp)
    have hc : c < 256 := h c (by simp)
    have hne3 : b64Char (b % 16 * 4 + c / 64) ≠ '=' := b64Char_ne_pad _ (by omega)
    have hne4 : b64Char (c % 64) ≠ '=' := b64Char_ne_pad _ (by omega)
    have h1 := b64Val_b64Char (a / 4) (by omega)
    have h2 := b64Val_b64Char (a % 4 * 16 + b / 16) (by omega)
    have h3 := b64Val_b64Char (b % 16 * 4 + c / 64) (by omega)
    have h4 := b64Val_b64Char (c % 64) (by omega)
    have ih := base64_decode_encode rest (fun x hx => h x (by simp [hx]))
    simp only [base64Encode, base64Decode, hne3, hne4, if_false, h1, h2, h3, h4,
      ih, List.cons.injEq, and_true]
    omega

/-! ## Lookup and id-normalization lemmas -/

theorem hasId_false_iff {st : DBState} {id : String} :
    hasId st id = false ↔ ∀ m ∈ st.memories, m.id ≠ id := by
  simp [hasId, List.any_eq_true]

theorem findMem_eq_none {st : DBState} {id : String} (h : hasId st id = false) :
    findMem st id = none := by
  rw [findMem, List.find?_eq_none]
  intro m hm
  simpa using hasId_false_iff.mp h m hm

theorem hasId_true_iff {st : DBState} {id : String} :
    hasId st id = true ↔ ∃ m ∈ st.memories, m.id = id := by
  simp [hasId, List.any_eq_true]

/-- The id that `ensureValidUUID` yields is always a valid UUID, provided the
freshly generated one is. -/
theorem ensureValidUUID_valid {id : Option String} {fresh : String}
    (hf : uuidValidate fresh = true) :
    uuidValidate (ensureValidUUID id fresh) = true := by
  unfold ensureValidUUID
  split
  · exact hf
  · next h =>
    simp only [Bool.or_eq_true, Bool.not_eq_true', not_or, Bool.not_eq_false] at h
    exact h.2

/-- A missing, empty or regex-invalid id is replaced by the fresh UUID. -/
theorem ensureValidUUID_replaces {id : Option String} {fresh : String}
    (h : jsFalsy id = true ∨ uuidValidate (id.getD "") = false) :
    ensureValidUUID id fresh = fresh := by
  unfold ensureValidUUID
  rcases h with h | h <;> simp [h]

/-- A valid nonempty id is kept. -/
theorem ensureValidUUID_keeps {s fresh : String} (h : uuidValidate s = true) :
    ensureValidUUID (some s) fresh = s := by
  have hne : s ≠ "" := by
    intro he
    rw [he] at h
    exact absurd h (by decide)
  simp [ensureValidUUID, jsFalsy, hne, h]

/-! ## Characterization of the SQL primitives -/

theorem insertMemory_ok {st : DBState} {id : String} {title content date mood : Option String}
    {tags : Option (List String)} {hi : Bool} {row : MemRow} {st2 : DBState}
    (h : insertMemory st id title content date mood tags hi = some (row, st2)) :
    hasId st id = false ∧ row.id = id ∧ row.has_image = hi ∧
      row.title = (title.getD "") ∧
      st2 = ⟨st.memories ++ [row], st.images⟩ := by
  unfold insertMemory at h
  split at h
  · next t c d =>
    split at h
    · exact absurd h (by simp)
    · next hni =>
      obtain ⟨hrow, hst⟩ := Prod.mk.injEq .. ▸ Option.some.injEq .. ▸ h
      subst hrow
      refine ⟨by simpa using hni, rfl, rfl, rfl, hst.symm⟩
  · exact absurd h (by simp)

theorem insertImage_ok {st : DBState} {id : String} {data : List Char} {mime : String}
    {st2 : DBState} (h : insertImage st id data mime = some st2) :
    hasId st id = true ∧ st2 = ⟨st.memories, st.images ++ [⟨id, data, mime⟩]⟩ := by
  unfold insertImage at h
  split at h
  · next hy => exact ⟨hy, by simpa using h.symm⟩
  · exact absurd h (by simp)

theorem updateMemoryRow_ok {st : DBState} {id title content date mood : String}
    {tags : List String} {hi : Bool} {row : MemRow} {st2 : DBState}
    (h : updateMemoryRow st id title content date mood tags hi = (some row, st2)) :
    row = ⟨id, title, content, date, some mood, some tags, hi⟩ ∧
      st2.memories = st.memories.map (fun m =>
        if m.id = id then ⟨m.id, title, content, date, some mood, some tags, hi⟩ else m) ∧
      st2.images = st.images := by
  unfold updateMemoryRow at h
  obtain ⟨hfind, hst⟩ := Prod.mk.injEq .. ▸ h
  subst hst
  refine ⟨?_, rfl, rfl⟩
  have hp := List.find?_some hfind
  have hmem := List.mem_of_find?_eq_some hfind
  rw [List.mem_map] at hmem
  obtain ⟨m, _, hup⟩ := hmem
  by_cases hid : m.id = id
  · rw [← hup]
    simp [hid]
  · rw [← hup] at hp
    simp [hid] at hp

/-! ## Characterization of the transaction bodies -/

/-- A committed POST transaction appended exactly the entry row and, when a
file was supplied, exactly its asset. -/
theorem postTxn_ok {st : DBState} {req : PostReq} {ora : Oracle} {fresh : String}
    {row : MemRow} {st2 : DBState}
    (h : postTxn st req ora fresh = some (row, st2)) :
    row.id = ensureValidUUID req.id fresh ∧
      row.has_image = req.file.isSome ∧
      hasId st row.id = false ∧
      st2.memories = st.memories ++ [row] ∧
      ((req.file = none ∧ st2.images = st.images) ∨
        (∃ f, req.file = some f ∧
          st2.images = st.images ++ [⟨row.id, base64Encode f.buffer, f.mimetype⟩])) := by
  unfold postTxn at h
  split at h
  · exact absurd h (by simp)
  split at h
  · exact absurd h (by simp)
  split at h
  · exact absurd h (by simp)
  split at h
  · exact absurd h (by simp)
  next tv heq =>
  split at h
  · exact absurd h (by simp)
  next p hins =>
  obtain ⟨hni, hid, hhi, -, hst1⟩ := insertMemory_ok hins
  split at h
  · next hnof =>
    split at h
    · exact absurd h (by simp)
    obtain ⟨hrow, hst2⟩ := Prod.mk.injEq .. ▸ Option.some.injEq .. ▸ h
    subst hrow
    rw [← hst2, hst1]
    exact ⟨hid, by rw [hhi, hnof], by rw [hid]; exact hni, rfl, Or.inl ⟨hnof, rfl⟩⟩
  · next f hsf =>
    split at h
    · exact absurd h (by simp)
    split at h
    · exact absurd h (by simp)
    split at h
    · exact absurd h (by simp)
    next st3 hinsImg =>
    split at h
    · exact absurd h (by simp)
    obtain ⟨hrow, hst2⟩ := Prod.mk.injEq .. ▸ Option.some.injEq .. ▸ h
    subst hrow
    obtain ⟨-, hst3⟩ := insertImage_ok hinsImg
    rw [← hst2, hst3, hst1]
    refine ⟨hid, by rw [hhi, hsf], by rw [hid]; exact hni, rfl, Or.inr ⟨f, hsf, ?_⟩⟩
    rw [hid]

/-- A POST transaction fails outright (and is rolled back) when the upload
middleware let the request through but a step failed; the route then leaves
the state untouched by construction of `postRoute`. -/
theorem postRoute_cases (st : DBState) (req : PostReq) (ora : Oracle) (fresh : String) :
    (postRoute st req ora fresh).2 = st ∨
      ∃ row, postRoute st req ora fresh = (Resp.created row, (postRoute st req ora fresh).2) := by
  unfold postRoute
  split
  · exact Or.inl rfl
  split
  · exact Or.inl rfl
  · next row st2 _ => exact Or.inr ⟨row, rfl⟩

/-- The three image branches of PUT, characterized. -/
theorem putImgStep_ok {st : DBState} {id : String} {req : PutReq} {ora : Oracle}
    {hi : Bool} {st1 : DBState} (h : putImgStep st id req ora = some (hi, st1)) :
    (∃ f, req.file = some f ∧ hi = true ∧
        st1.memories = st.memories ∧
        st1.images = (st.images.filter fun r => r.memory_id ≠ id) ++
          [⟨id, base64Encode f.buffer, f.mimetype⟩]) ∨
      (req.file = none ∧ req.deleteImage = JsField.strv "true" ∧ hi = false ∧
        st1 = deleteImagesFor st id) ∨
      (req.file = none ∧ req.deleteImage ≠ JsField.strv "true" ∧
        hi = ((findMem st id).map MemRow.has_image).getD false ∧ st1 = st) := by
  unfold putImgStep at h
  split at h
  · next f hsf =>
    split at h
    · exact absurd h (by simp)
    split at h
    · exact absurd h (by simp)
    split at h
    · exact absurd h (by simp)
    rw [Option.map_eq_some'] at h
    obtain ⟨st3, hins, hpair⟩ := h
    obtain ⟨hhi, hst1⟩ := Prod.mk.injEq .. ▸ hpair
    obtain ⟨-, hst3⟩ := insertImage_ok hins
    refine Or.inl ⟨f, hsf, hhi.symm, ?_, ?_⟩
    · rw [← hst1, hst3]
      rfl
    · rw [← hst1, hst3]
      rfl
  · next hnof =>
    split at h
    · next hdel =>
      split at h
      · exact absurd h (by simp)
      obtain ⟨hhi, hst1⟩ := Prod.mk.injEq .. ▸ Option.some.injEq .. ▸ h
      exact Or.inr (Or.inl ⟨hnof, hdel, hhi.symm, hst1.symm⟩)
    · next hkeep =>
      split at h
      · exact absurd h (by simp)
      obtain ⟨hhi, hst1⟩ := Prod.mk.injEq .. ▸ Option.some.injEq .. ▸ h
      exact Or.inr (Or.inr ⟨hnof, hkeep, hhi.symm, hst1.symm⟩)

/-- Rewriting the per-row update function against the returned row. -/
theorem map_upd_row (ms : List MemRow) (row : MemRow) (t c d : String)
    (mo : Option String) (tg : Option (List String)) (hi : Bool)
    (hrow : row = ⟨row.id, t, c, d, mo, tg, hi⟩) :
    ms.map (fun m => if m.id = row.id then (⟨m.id, t, c, d, mo, tg, hi⟩ : MemRow) else m) =
      ms.map (fun m => if m.id = row.id then row else m) :=
  List.map_congr_left fun m _ => by
    by_cases hmi : m.id = row.id
    · simp only [hmi, if_pos rfl]
      exact hrow.symm
    · rw [if_neg hmi, if_neg hmi]

/-- A committed PUT transaction: the entry existed, every text field is the
full-replace value, the tags come from the tags pipeline, the row update is
applied to every matching row, and the image effect follows the branch that
was taken. -/
theorem putTxn_ok {st : DBState} {idParam : String} {req : PutReq} {ora : Oracle}
    {fresh now : String} {row : MemRow} {st2 : DBState}
    (h : putTxn st idParam req ora fresh now = some (PutOut.committed row st2)) :
    hasId st (ensureValidUUID (some idParam) fresh) = true ∧
      row.id = ensureValidUUID (some idParam) fresh ∧
      row.title = jsOr req.title "" ∧
      row.content = jsOr req.content "" ∧
      row.date = jsOr req.date now ∧
      row.mood = some (jsOr req.mood "happy") ∧
      (∃ tags, tagsPut req.tags = Except.ok tags ∧ row.tags = some tags) ∧
      st2.memories = st.memories.map (fun m => if m.id = row.id then row else m) ∧
      ((∃ f, req.file = some f ∧ row.has_image = true ∧
          st2.images = (st.images.filter fun r => r.memory_id ≠ row.id) ++
            [⟨row.id, base64Encode f.buffer, f.mimetype⟩]) ∨
        (req.file = none ∧ req.deleteImage = JsField.strv "true" ∧
          row.has_image = false ∧
          st2.images = st.images.filter fun r => r.memory_id ≠ row.id) ∨
        (req.file = none ∧ req.deleteImage ≠ JsField.strv "true" ∧
          row.has_image = ((findMem st row.id).map MemRow.has_image).getD false ∧
          st2.images = st.images)) := by
  unfold putTxn at h
  split at h
  · exact absurd h (by simp)
  split at h
  · exact absurd h (by simp)
  split at h
  · next hni => exact absurd h (by simp)
  next hex =>
  split at h
  · exact absurd h (by simp)
  split at h
  · exact absurd h (by simp)
  next tags htags =>
  split at h
  · exact absurd h (by simp)
  next hi st1 himg =>
  split at h
  · exact absurd h (by simp)
  split at h
  · exact absurd h (by simp)
  next row1 st3 hupd =>
  split at h
  · exact absurd h (by simp)
  rw [Option.some.injEq] at h
  have hr1 : row1 = row := congrArg (fun o => match o with
    | PutOut.committed m _ => m
    | PutOut.rolledBack404 => row1) h
  have hs3 : st3 = st2 := congrArg (fun o => match o with
    | PutOut.committed _ s => s
    | PutOut.rolledBack404 => st3) h
  subst hr1
  subst hs3
  obtain ⟨hrow, hms, himgs⟩ := updateMemoryRow_ok hupd
  obtain hbr := putImgStep_ok himg
  have hexT : hasId st (ensureValidUUID (some idParam) fresh) = true := by
    simpa using hex
  have hid : row1.id = ensureValidUUID (some idParam) fresh := by rw [hrow]
  have hid' : ensureValidUUID (some idParam) fresh = row1.id := hid.symm
  simp only [hid'] at hms hrow hbr
  refine ⟨hexT, hid, by rw [hrow], by rw [hrow], by rw [hrow], by rw [hrow],
    ⟨tags, htags, by rw [hrow]⟩, ?_, ?_⟩
  · -- the memories after the UPDATE
    rcases hbr with ⟨f, -, -, hm1, -⟩ | ⟨-, -, -, hst1⟩ | ⟨-, -, -, hst1⟩
    · rw [hms, hm1]
      exact map_upd_row _ _ _ _ _ _ _ _ hrow
    · rw [hms, hst1]
      exact map_upd_row _ _ _ _ _ _ _ _ hrow
    · rw [hms, hst1]
      exact map_upd_row _ _ _ _ _ _ _ _ hrow
  · -- the images after the branch
    rcases hbr with ⟨f, hsf, hhi, -, hi1⟩ | ⟨hnof, hdel, hhi, hst1⟩ | ⟨hnof, hkeep, hhi, hst1⟩
    · refine Or.inl ⟨f, hsf, ?_, ?_⟩
      · rw [hrow]
        exact hhi
      · rw [himgs, hi1]
    · refine Or.inr (Or.inl ⟨hnof, hdel, ?_, ?_⟩)
      · rw [hrow]
        exact hhi
      · rw [himgs, hst1]
        rfl
    · refine Or.inr (Or.inr ⟨hnof, hkeep, ?_, ?_⟩)
      · rw [hrow]
        exact hhi
      · rw [himgs, hst1]

/-- An id that is not present rolls the PUT transaction back with a 404. -/
theorem putTxn_404 {st : DBState} {idParam : String} {req : PutReq}
    {fresh now : String}
    (hni : hasId st (ensureValidUUID (some idParam) fresh) = false) :
    putTxn st idParam req noFail fresh now = some PutOut.rolledBack404 := by
  unfold putTxn
  simp [noFail, hni]

/-- An empty RETURNING set of the DELETE means the id was absent. -/
theorem deleteMemory_fst_empty_iff {st : DBState} {id : String} :
    (deleteMemory st id).1.isEmpty = true ↔ hasId st id = false := by
  simp only [deleteMemory, List.isEmpty_iff, List.filter_eq_nil_iff, hasId,
    Bool.eq_false_iff, Ne, List.any_eq_true, decide_eq_true_eq]
  constructor
  · rintro ha ⟨m, hm, hid⟩
    exact ha m hm hid
  · intro ha m hm hid
    exact ha ⟨m, hm, hid⟩

/-- Deleting an absent id answers 404 and rolls back. -/
theorem deleteTxn_404 {st : DBState} {idParam fresh : String}
    (hni : hasId st (ensureValidUUID (some idParam) fresh) = false) :
    deleteTxn st idParam noFail fresh = some DelOut.rolledBack404 := by
  unfold deleteTxn
  simp [noFail, deleteMemory_fst_empty_iff.mpr hni]

/-- Deleting a present id commits the cascade delete. -/
theorem deleteTxn_commits {st : DBState} {idParam fresh : String}
    (hy : hasId st (ensureValidUUID (some idParam) fresh) = true) :
    deleteTxn st idParam noFail fresh =
      some (DelOut.committed (deleteMemory st (ensureValidUUID (some idParam) fresh)).2) := by
  unfold deleteTxn
  have : ¬(deleteMemory st (ensureValidUUID (some idParam) fresh)).1.isEmpty = true := by
    rw [deleteMemory_fst_empty_iff]
    simp [hy]
  simp [noFail, this]

/-- A committed DELETE transaction produced the cascade-filtered state. -/
theorem deleteTxn_ok {st : DBState} {idParam fresh : String} {ora : Oracle}
    {st2 : DBState} (h : deleteTxn st idParam ora fresh = some (DelOut.committed st2)) :
    st2 = (deleteMemory st (ensureValidUUID (some idParam) fresh)).2 ∧
      hasId st (ensureValidUUID (some idParam) fresh) = true := by
  unfold deleteTxn at h
  split at h
  · exact absurd h (by simp)
  split at h
  · exact absurd h (by simp)
  split at h
  · next hemp =>
    exact absurd h (by simp)
  next hemp =>
  split at h
  · exact absurd h (by simp)
  rw [Option.some.injEq] at h
  have hst : (deleteMemory st (ensureValidUUID (some idParam) fresh)).2 = st2 :=
    congrArg (fun o => match o with
      | DelOut.committed s => s
      | DelOut.rolledBack404 => st2) h
  refine ⟨hst.symm, ?_⟩
  cases hhi : hasId st (ensureValidUUID (some idParam) fresh) with
  | true => rfl
  | false => exact absurd (deleteMemory_fst_empty_iff.mpr hhi) (by simpa using hemp)

/-! ## Invariant preservation -/

theorem inv_empty : Inv DBState.empty := by
  refine ⟨List.Pairwise.nil, ?_, ?_, ?_⟩ <;> simp [DBState.empty]

theorem inv_post {st : DBState} (req : PostReq) (ora : Oracle) {fresh : String}
    (hI : Inv st) (hf : uuidValidate fresh = true) :
    Inv (postRoute st req ora fresh).2 := by
  obtain ⟨hPW, hVal, hFK, hFlag⟩ := hI
  unfold postRoute
  split
  · exact ⟨hPW, hVal, hFK, hFlag⟩
  split
  · exact ⟨hPW, hVal, hFK, hFlag⟩
  next row st2 hok =>
  obtain ⟨hid, hhi, hni, hms, himgs⟩ := postTxn_ok hok
  have hnotold : ∀ m ∈ st.memories, m.id ≠ row.id := hasId_false_iff.mp hni
  have hnoimg : ∀ r ∈ st.images, r.memory_id ≠ row.id := by
    intro r hr he
    obtain ⟨m, hm, hmid⟩ := hFK r hr
    exact hnotold m hm (hmid.trans he)
  have hmem2 : ∀ m, m ∈ st2.memories ↔ m ∈ st.memories ∨ m = row := by
    intro m
    rw [hms]
    simp
  refine ⟨?_, ?_, ?_, ?_⟩
  · rw [hms, List.pairwise_append]
    exact ⟨hPW, List.pairwise_singleton _ _,
      fun a ha b hb => by simpa [List.mem_singleton.mp hb] using hnotold a ha⟩
  · intro m hm
    rcases (hmem2 m).mp hm with hold | hnew
    · exact hVal m hold
    · rw [hnew, hid]
      exact ensureValidUUID_valid hf
  · intro r hr
    rcases himgs with ⟨-, hsame⟩ | ⟨f, -, happ⟩
    · rw [hsame] at hr
      obtain ⟨m, hm, hmid⟩ := hFK r hr
      exact ⟨m, (hmem2 m).mpr (Or.inl hm), hmid⟩
    · rw [happ] at hr
      rcases List.mem_append.mp hr with hold | hnew
      · obtain ⟨m, hm, hmid⟩ := hFK r hold
        exact ⟨m, (hmem2 m).mpr (Or.inl hm), hmid⟩
      · refine ⟨row, (hmem2 row).mpr (Or.inr rfl), ?_⟩
        rw [List.mem_singleton.mp hnew]
  · intro m hm
    rcases (hmem2 m).mp hm with hold | hnew
    · -- an old row: the new image (if any) belongs to the fresh id
      have hne : m.id ≠ row.id := hnotold m hold
      rcases himgs with ⟨-, hsame⟩ | ⟨f, -, happ⟩
      · rw [hsame]
        exact hFlag m hold
      · rw [happ]
        rw [hFlag m hold]
        constructor
        · rintro ⟨r, hr, hrm⟩
          exact ⟨r, List.mem_append.mpr (Or.inl hr), hrm⟩
        · rintro ⟨r, hr, hrm⟩
          rcases List.mem_append.mp hr with h1 | h1
          · exact ⟨r, h1, hrm⟩
          · rw [List.mem_singleton.mp h1] at hrm
            exact absurd hrm.symm hne
    · -- the new row: flag true exactly when a file was attached
      subst hnew
      rcases himgs with ⟨hnof, hsame⟩ | ⟨f, hsf, happ⟩
      · rw [hhi, hnof, hsame]
        simp only [Option.isSome_none]
        constructor
        · intro hfalse
          exact absurd hfalse (by simp)
        · rintro ⟨r, hr, hrm⟩
          exact absurd hrm (hnoimg r hr)
      · rw [hhi, hsf, happ]
        simp only [Option.isSome_some, true_iff]
        exact ⟨⟨m.id, base64Encode f.buffer, f.mimetype⟩,
          List.mem_append.mpr (Or.inr (List.mem_singleton.mpr rfl)), rfl⟩

/-- When the id is present, `findMem` returns a matching stored row. -/
theorem findMem_some_of_hasId {st : DBState} {id : String} (hy : hasId st id = true) :
    ∃ m0, findMem st id = some m0 ∧ m0.id = id ∧ m0 ∈ st.memories := by
  obtain ⟨m, hm, hid⟩ := hasId_true_iff.mp hy
  have hs : (findMem st id).isSome = true := by
    rw [findMem, List.find?_isSome]
    exact ⟨m, hm, by simp [hid]⟩
  obtain ⟨m0, hm0⟩ := Option.isSome_iff_exists.mp hs
  refine ⟨m0, hm0, ?_, List.mem_of_find?_eq_some hm0⟩
  have := List.find?_some hm0
  simpa using this

/-- Filtering away the images of one id does not affect lookups of other ids. -/
theorem exists_img_filter {imgs : List ImageRow} {idX mid : String} (hne : mid ≠ idX) :
    (∃ r ∈ imgs.filter (fun r => r.memory_id ≠ idX), r.memory_id = mid) ↔
      ∃ r ∈ imgs, r.memory_id = mid := by
  constructor
  · rintro ⟨r, hr, hrm⟩
    exact ⟨r, (List.mem_filter.mp hr).1, hrm⟩
  · rintro ⟨r, hr, hrm⟩
    refine ⟨r, List.mem_filter.mpr ⟨hr, ?_⟩, hrm⟩
    simp [hrm, hne]

theorem inv_put {st : DBState} (idParam : String) (req : PutReq) (ora : Oracle)
    {fresh : String} (now : String) (hI : Inv st) (_hf : uuidValidate fresh = true) :
    Inv (putRoute st idParam req ora fresh now).2 := by
  obtain ⟨hPW, hVal, hFK, hFlag⟩ := hI
  unfold putRoute
  split
  · exact ⟨hPW, hVal, hFK, hFlag⟩
  split
  · exact ⟨hPW, hVal, hFK, hFlag⟩
  · exact ⟨hPW, hVal, hFK, hFlag⟩
  next row st2 hok =>
  obtain ⟨hex, hid, -, -, -, -, -, hms, hbr⟩ := putTxn_ok hok
  rw [← hid] at hex
  have hfid : ∀ m : MemRow, ((if m.id = row.id then row else m) : MemRow).id = m.id := by
    intro m
    by_cases hmi : m.id = row.id
    · rw [if_pos hmi, hmi]
    · rw [if_neg hmi]
  have hmem2 : ∀ m2, m2 ∈ st2.memories ↔
      ∃ m ∈ st.memories, m2 = if m.id = row.id then row else m := by
    intro m2
    rw [hms]
    simp only [List.mem_map]
    constructor
    · rintro ⟨m, hm, he⟩
      exact ⟨m, hm, he.symm⟩
    · rintro ⟨m, hm, he⟩
      exact ⟨m, hm, he.symm⟩
  refine ⟨?_, ?_, ?_, ?_⟩
  · rw [hms]
    refine List.Pairwise.map _ (fun a b hab => ?_) hPW
    rw [hfid a, hfid b]
    exact hab
  · intro m2 hm2
    obtain ⟨m, hm, he⟩ := (hmem2 m2).mp hm2
    rw [he, hfid m]
    exact hVal m hm
  · intro r hr
    have hget : ∀ mid, (∃ m ∈ st.memories, m.id = mid) →
        ∃ m2 ∈ st2.memories, m2.id = mid := by
      rintro mid ⟨m, hm, hmid⟩
      refine ⟨if m.id = row.id then row else m, (hmem2 _).mpr ⟨m, hm, rfl⟩, ?_⟩
      rw [hfid m, hmid]
    rcases hbr with ⟨f, -, -, himgs⟩ | ⟨-, -, -, himgs⟩ | ⟨-, -, -, himgs⟩
    · rw [himgs] at hr
      rcases List.mem_append.mp hr with h1 | h1
      · exact hget _ (hFK r (List.mem_filter.mp h1).1)
      · rw [List.mem_singleton.mp h1]
        exact hget _ (hasId_true_iff.mp hex)
    · rw [himgs] at hr
      exact hget _ (hFK r (List.mem_filter.mp hr).1)
    · rw [himgs] at hr
      exact hget _ (hFK r hr)
  · intro m2 hm2
    obtain ⟨m, hm, he⟩ := (hmem2 m2).mp hm2
    by_cases hmi : m.id = row.id
    · -- the updated row itself
      rw [if_pos hmi] at he
      subst he
      rcases hbr with ⟨f, -, hhi, himgs⟩ | ⟨-, -, hhi, himgs⟩ | ⟨-, -, hhi, himgs⟩
      · rw [hhi, himgs]
        simp only [true_iff]
        exact ⟨⟨m2.id, base64Encode f.buffer, f.mimetype⟩,
          List.mem_append.mpr (Or.inr (List.mem_singleton.mpr rfl)), rfl⟩
      · rw [hhi, himgs]
        constructor
        · intro hfalse
          exact absurd hfalse (by simp)
        · rintro ⟨r, hr, hrm⟩
          have := (List.mem_filter.mp hr).2
          rw [hrm] at this
          simp at this
      · obtain ⟨m0, hfind, hm0id, hm0mem⟩ := findMem_some_of_hasId hex
        rw [hhi, himgs, hfind]
        simp only [Option.map_some', Option.getD_some]
        rw [hFlag m0 hm0mem, hm0id]
    · -- an untouched row
      rw [if_neg hmi] at he
      subst he
      rcases hbr with ⟨f, -, -, himgs⟩ | ⟨-, -, -, himgs⟩ | ⟨-, -, -, himgs⟩
      · rw [himgs, hFlag m2 hm]
        constructor
        · intro hx
          rcases (exists_img_filter hmi).mpr hx with ⟨r, hr, hrm⟩
          exact ⟨r, List.mem_append.mpr (Or.inl hr), hrm⟩
        · rintro ⟨r, hr, hrm⟩
          rcases List.mem_append.mp hr with h1 | h1
          · exact ⟨r, (List.mem_filter.mp h1).1, hrm⟩
          · rw [List.mem_singleton.mp h1] at hrm
            exact absurd hrm.symm hmi
      · rw [himgs, hFlag m2 hm]
        exact (exists_img_filter hmi).symm
      · rw [himgs]
        exact hFlag m2 hm

theorem inv_del {st : DBState} (idParam : String) (ora : Oracle) {fresh : String}
    (hI : Inv st) : Inv (deleteRoute st idParam ora fresh).2 := by
  obtain ⟨hPW, hVal, hFK, hFlag⟩ := hI
  unfold deleteRoute
  split
  · exact ⟨hPW, hVal, hFK, hFlag⟩
  · exact ⟨hPW, hVal, hFK, hFlag⟩
  next st2 hok =>
  obtain ⟨hst2, -⟩ := deleteTxn_ok hok
  subst hst2
  unfold deleteMemory
  refine ⟨?_, ?_, ?_, ?_⟩
  · exact hPW.sublist (List.filter_sublist _)
  · intro m hm
    exact hVal m (List.mem_of_mem_filter hm)
  · intro r hr
    obtain ⟨hrmem, hrne⟩ := List.mem_filter.mp hr
    obtain ⟨m, hm, hmid⟩ := hFK r hrmem
    refine ⟨m, List.mem_filter.mpr ⟨hm, ?_⟩, hmid⟩
    rw [hmid]
    exact hrne
  · intro m hm
    obtain ⟨hmmem, hmne⟩ := List.mem_filter.mp hm
    rw [hFlag m hmmem]
    constructor
    · rintro ⟨r, hr, hrm⟩
      refine ⟨r, List.mem_filter.mpr ⟨hr, ?_⟩, hrm⟩
      rw [hrm]
      exact hmne
    · rintro ⟨r, hr, hrm⟩
      exact ⟨r, (List.mem_filter.mp hr).1, hrm⟩

/-- Every reachable database state satisfies the invariant. -/
theorem reachable_inv {st : DBState} (h : Reachable st) : Inv st := by
  induction h with
  | init => exact inv_empty
  | post st req ora fresh hst hf ih => exact inv_post req ora ih hf
  | put st idParam req ora fresh now hst hf ih => exact inv_put idParam req ora now ih hf
  | del st idParam ora fresh hst hf ih => exact inv_del idParam ora ih

/-! ## Route-level helpers -/

theorem jsOr_falsy {v : Option String} {d : String} (h : jsFalsy v = true) :
    jsOr v d = d := by
  cases v with
  | none => rfl
  | some s =>
    simp only [jsFalsy, decide_eq_true_eq] at h
    simp [jsOr, h]

/-- A 200 response of PUT comes from a committed transaction. -/
theorem putRoute_ok {st : DBState} {idParam : String} {req : PutReq} {ora : Oracle}
    {fresh now : String} {row : MemRow} {st2 : DBState}
    (h : putRoute st idParam req ora fresh now = (Resp.okMem row, st2)) :
    putTxn st idParam req ora fresh now = some (PutOut.committed row st2) := by
  unfold putRoute at h
  split at h
  · exact absurd (congrArg Prod.fst h) (by simp)
  split at h
  · exact absurd (congrArg Prod.fst h) (by simp)
  · exact absurd (congrArg Prod.fst h) (by simp)
  next row1 st3 heq =>
  have hr : row1 = row := by
    have := congrArg Prod.fst h
    simpa using this
  have hs : st3 = st2 := by
    have := congrArg Prod.snd h
    simpa using this
  rw [← hr, ← hs]
  exact heq

/-- A 201 response of POST comes from a committed transaction. -/
theorem postRoute_okTxn {st : DBState} {req : PostReq} {ora : Oracle}
    {fresh : String} {row : MemRow} {st2 : DBState}
    (h : postRoute st req ora fresh = (Resp.created row, st2)) :
    postTxn st req ora fresh = some (row, st2) := by
  unfold postRoute at h
  split at h
  · exact absurd (congrArg Prod.fst h) (by simp)
  split at h
  · exact absurd (congrArg Prod.fst h) (by simp)
  next row1 st3 heq =>
  have hr : row1 = row := by
    have := congrArg Prod.fst h
    simpa using this
  have hs : st3 = st2 := by
    have := congrArg Prod.snd h
    simpa using this
  rw [← hr, ← hs]
  exact heq

theorem find?_append_none {α : Type} (p : α → Bool) :
    ∀ l1 l2 : List α, l1.find? p = none → (l1 ++ l2).find? p = l2.find? p
  | [], _, _ => rfl
  | a :: t, l2, h => by
    cases hpa : p a with
    | true =>
      rw [List.find?_cons_of_pos _ hpa] at h
      exact absurd h (by simp)
    | false =>
      rw [List.find?_cons_of_neg _ (by simp [hpa])] at h
      rw [List.cons_append, List.find?_cons_of_neg _ (by simp [hpa])]
      exact find?_append_none p t l2 h

/-- The committed row of a PUT is a member of the new memories table. -/
theorem putTxn_row_mem {st : DBState} {idParam : String} {req : PutReq} {ora : Oracle}
    {fresh now : String} {row : MemRow} {st2 : DBState}
    (h : putTxn st idParam req ora fresh now = some (PutOut.committed row st2)) :
    row ∈ st2.memories := by
  obtain ⟨hex, hid, -, -, -, -, -, hms, -⟩ := putTxn_ok h
  rw [← hid] at hex
  obtain ⟨m0, hm0, hm0id⟩ := hasId_true_iff.mp hex
  rw [hms, List.mem_map]
  exact ⟨m0, hm0, by rw [if_pos hm0id]⟩

/-! ## The claims -/

/-- C1: every request to Get, Update, Delete (and the id of Create) first
replaces a missing or invalid id with a freshly generated valid UUID instead
of rejecting the request; hence a malformed id makes Get, Update and Delete
answer 404 NotFound (the fresh UUID is absent), never a validation error,
and every stored id is a valid UUID. -/
theorem claim_C1 (st : DBState) (idParam fresh now : String) (req : PutReq)
    (hmal : uuidValidate idParam = false)
    (hfresh : uuidValidate fresh = true)
    (hnotin : hasId st fresh = false)
    (hup : uploadCheck req.file = none) :
    ensureValidUUID (some idParam) fresh = fresh ∧
      (∀ o : Option String, uuidValidate (ensureValidUUID o fresh) = true) ∧
      getMemoryRoute st idParam fresh = Resp.notFound ∧
      putRoute st idParam req noFail fresh now = (Resp.notFound, st) ∧
      deleteRoute st idParam noFail fresh = (Resp.notFound, st) ∧
      Resp.notFound.status = 404 ∧
      (∀ st2, Reachable st2 → ∀ m ∈ st2.memories, uuidValidate m.id = true) := by
  have hrep : ensureValidUUID (some idParam) fresh = fresh :=
    ensureValidUUID_replaces (Or.inr (by simpa using hmal))
  have hni : hasId st (ensureValidUUID (some idParam) fresh) = false := by
    rw [hrep]
    exact hnotin
  refine ⟨hrep, fun o => ensureValidUUID_valid hfresh, ?_, ?_, ?_, rfl,
    fun st2 h2 => (reachable_inv h2).2.1⟩
  · unfold getMemoryRoute
    rw [hrep, findMem_eq_none hnotin]
  · unfold putRoute
    rw [hup, putTxn_404 hni]
  · unfold deleteRoute
    rw [deleteTxn_404 hni]

/-- C2: in every reachable state, the has_image flag of an entry is true
exactly when a memory_images row for its id exists. -/
theorem claim_C2 (st : DBState) (h : Reachable st) :
    ∀ m ∈ st.memories, (m.has_image = true ↔ ∃ r ∈ st.images, r.memory_id = m.id) :=
  (reachable_inv h).2.2.2

/-- C3: every write is atomic under an arbitrary per-query failure oracle:
the observable state is either exactly the initial one (rollback) or exactly
the fully committed one — an entry row without its supplied asset, or a
cascade delete that left the asset behind, is never observable. -/
theorem claim_C3 (st : DBState) (req : PostReq) (idParam : String) (preq : PutReq)
    (ora : Oracle) (fresh now : String) :
    ((postRoute st req ora fresh).2 = st ∨
      ∃ row, (postRoute st req ora fresh).1 = Resp.created row ∧
        (postRoute st req ora fresh).2.memories = st.memories ++ [row] ∧
        ((req.file = none ∧ (postRoute st req ora fresh).2.images = st.images) ∨
          ∃ f, req.file = some f ∧
            (postRoute st req ora fresh).2.images =
              st.images ++ [⟨row.id, base64Encode f.buffer, f.mimetype⟩])) ∧
    ((putRoute st idParam preq ora fresh now).2 = st ∨
      ∃ row, (putRoute st idParam preq ora fresh now).1 = Resp.okMem row ∧
        row ∈ (putRoute st idParam preq ora fresh now).2.memories ∧
        ∀ f, preq.file = some f →
          (⟨row.id, base64Encode f.buffer, f.mimetype⟩ : ImageRow) ∈
            (putRoute st idParam preq ora fresh now).2.images) ∧
    ((deleteRoute st idParam ora fresh).2 = st ∨
      ((deleteRoute st idParam ora fresh).1 = Resp.okDeleted ∧
        hasId (deleteRoute st idParam ora fresh).2
          (ensureValidUUID (some idParam) fresh) = false ∧
        ∀ r ∈ (deleteRoute st idParam ora fresh).2.images,
          r.memory_id ≠ ensureValidUUID (some idParam) fresh)) := by
  refine ⟨?_, ?_, ?_⟩
  · -- POST
    unfold postRoute
    cases hU : uploadCheck req.file with
    | some e => exact Or.inl rfl
    | none =>
      cases hT : postTxn st req ora fresh with
      | none => exact Or.inl rfl
      | some p =>
        obtain ⟨row, st2⟩ := p
        obtain ⟨-, -, -, hms, himgs⟩ := postTxn_ok hT
        exact Or.inr ⟨row, rfl, hms, himgs⟩
  · -- PUT
    unfold putRoute
    cases hU : uploadCheck preq.file with
    | some e => exact Or.inl rfl
    | none =>
      cases hT : putTxn st idParam preq ora fresh now with
      | none => exact Or.inl rfl
      | some o =>
        cases o with
        | rolledBack404 => exact Or.inl rfl
        | committed row st2 =>
          refine Or.inr ⟨row, rfl, putTxn_row_mem hT, fun f hsf => ?_⟩
          obtain ⟨-, -, -, -, -, -, -, -, hbr⟩ := putTxn_ok hT
          rcases hbr with ⟨f2, hsf2, -, himgs⟩ | ⟨hnof, -⟩ | ⟨hnof, -⟩
          · rw [hsf] at hsf2
            injection hsf2 with hf2
            show _ ∈ st2.images
            rw [himgs, hf2]
            exact List.mem_append.mpr (Or.inr (List.mem_singleton.mpr rfl))
          · rw [hsf] at hnof
            exact absurd hnof (by simp)
          · rw [hsf] at hnof
            exact absurd hnof (by simp)
  · -- DELETE
    unfold deleteRoute
    cases hT : deleteTxn st idParam ora fresh with
    | none => exact Or.inl rfl
    | some o =>
      cases o with
      | rolledBack404 => exact Or.inl rfl
      | committed st2 =>
        obtain ⟨hst2, -⟩ := deleteTxn_ok hT
        refine Or.inr ⟨rfl, ?_, ?_⟩
        · show hasId st2 (ensureValidUUID (some idParam) fresh) = false
          rw [hst2]
          simp only [deleteMemory, hasId]
          rw [List.any_eq_false]
          intro m hm
          have := (List.mem_filter.mp hm).2
          simpa using this
        · show ∀ r ∈ st2.images, r.memory_id ≠ ensureValidUUID (some idParam) fresh
          intro r hr
          rw [hst2] at hr
          have := (List.mem_filter.mp hr).2
          simpa using this

/-- C4 (amended): the upload middleware rejects a file exactly when the
substring test on the declared MIME type or on the lowercased extension
fails, or the buffer exceeds 5 MiB; on rejection the request is aborted
before the route handler, so the database state is untouched and no row or
asset is written. -/
theorem claim_C4 (st : DBState) (req : PostReq) (idParam : String) (preq : PutReq)
    (ora : Oracle) (fresh now : String) (f : UploadFile)
    (hbad : fileFilterOk f = false ∨ 5 * 1024 * 1024 < f.buffer.length) :
    (∃ e, uploadCheck (some f) = some e) ∧
      (req.file = some f → ∃ e, postRoute st req ora fresh = (Resp.uploadRejected e, st)) ∧
      (preq.file = some f →
        ∃ e, putRoute st idParam preq ora fresh now = (Resp.uploadRejected e, st)) := by
  have hrej : ∃ e, uploadCheck (some f) = some e := by
    unfold uploadCheck
    rcases hbad with hb | hb
    · exact ⟨UploadError.badType, by simp [hb]⟩
    · by_cases hok : fileFilterOk f
      · exact ⟨UploadError.tooLarge, by simp [hok, hb]⟩
      · exact ⟨UploadError.badType, by simp [hok]⟩
  obtain ⟨e, he⟩ := hrej
  refine ⟨⟨e, he⟩, fun hrf => ⟨e, ?_⟩, fun hpf => ⟨e, ?_⟩⟩
  · unfold postRoute
    rw [hrf, he]
  · unfold putRoute
    rw [hpf, he]

/-- C4 counterexample: the claim as stated says a file whose extension fails
the allow-list of extensions is rejected with a validation error before any
database interaction; but `.mypngfile` is not an allowed extension, the
substring-based filter accepts it, the create succeeds, and a row and asset
are written. -/
theorem claim_C4_cx :
    specExtAllowed cxFile = false ∧
      uploadCheck (some cxFile) = none ∧
      (postRoute DBState.empty cxReq noFail wFresh).1 =
        Resp.created ⟨wFresh, "t", "c", "2024-05-01", none, none, true⟩ ∧
      (postRoute DBState.empty cxReq noFail wFresh).2.memories ≠ [] := by
  refine ⟨by decide, by decide, by decide, by decide⟩

/-- C4 witness: a text file is rejected by the middleware and the state is
untouched. -/
theorem claim_C4_witness :
    (∃ e, uploadCheck (some ⟨"a.txt", "text/plain", []⟩) = some e) ∧
      (∃ e, postRoute DBState.empty
          ⟨none, some "t", some "c", some "d", none, TagsField.absent,
            some ⟨"a.txt", "text/plain", []⟩⟩ noFail wFresh =
        (Resp.uploadRejected e, DBState.empty)) := by
  have hc := claim_C4 DBState.empty
    ⟨none, some "t", some "c", some "d", none, TagsField.absent,
      some ⟨"a.txt", "text/plain", []⟩⟩ "x"
    ⟨none, none, none, none, TagsField.absent, JsField.und, none⟩
    noFail wFresh "now" ⟨"a.txt", "text/plain", []⟩ (Or.inl (by decide))
  exact ⟨hc.1, hc.2.1 rfl⟩

/-- C5: update is a full replace — an omitted or empty field is persisted as
its default (empty strings, the fixed mood `happy`, the current time, the
empty tag array), never as the previously stored value. -/
theorem claim_C5 {st : DBState} {idParam fresh now : String} {req : PutReq}
    {row : MemRow} {st2 : DBState}
    (h : putRoute st idParam req noFail fresh now = (Resp.okMem row, st2)) :
    (jsFalsy req.title = true → row.title = "") ∧
      (jsFalsy req.content = true → row.content = "") ∧
      (jsFalsy req.mood = true → row.mood = some "happy") ∧
      (jsFalsy req.date = true → row.date = now) ∧
      (req.tags = TagsField.absent → row.tags = some []) ∧
      row ∈ st2.memories := by
  have htx := putRoute_ok h
  obtain ⟨-, -, ht, hc, hd, hm, ⟨tags, htags, hrt⟩, -, -⟩ := putTxn_ok htx
  refine ⟨?_, ?_, ?_, ?_, ?_, putTxn_row_mem htx⟩
  · intro hft
    rw [ht, jsOr_falsy hft]
  · intro hfc
    rw [hc, jsOr_falsy hfc]
  · intro hfm
    rw [hm, jsOr_falsy hfm]
  · intro hfd
    rw [hd, jsOr_falsy hfd]
  · intro habs
    rw [habs] at htags
    have : tags = [] := by
      have := htags
      unfold tagsPut at this
      injection this with h1
      exact h1.symm
    rw [hrt, this]

/-- C6: a tags string is JSON-parsed first and only on parse failure split
on commas with trimming; `a,b,c` yields the three tags a, b, c and the JSON
text for the array of a and b yields those two tags, on both Create and
Update. -/
theorem claim_C6 (s t : String) (v : Json) (xs : List String)
    (hfail : (jsonParse s).isNone = true)
    (hok : jsonParse t = some v) (hxs : jsonToTags v = some xs) :
    tagsPost (TagsField.strv s) = Except.ok (some (splitTrim s)) ∧
      tagsPut (TagsField.strv s) = Except.ok (splitTrim s) ∧
      tagsPost (TagsField.strv t) = Except.ok (some xs) ∧
      tagsPut (TagsField.strv t) = Except.ok xs ∧
      tagsPost (TagsField.strv "a,b,c") = Except.ok (some ["a", "b", "c"]) ∧
      tagsPut (TagsField.strv "a,b,c") = Except.ok ["a", "b", "c"] ∧
      tagsPost (TagsField.strv "[\"a\",\"b\"]") = Except.ok (some ["a", "b"]) ∧
      tagsPut (TagsField.strv "[\"a\",\"b\"]") = Except.ok ["a", "b"] := by
  have hnone : jsonParse s = none := Option.isNone_iff_eq_none.mp hfail
  refine ⟨?_, ?_, ?_, ?_, rfl, rfl, rfl, rfl⟩
  · simp [tagsPost, hnone]
  · simp [tagsPut, hnone]
  · simp [tagsPost, hok, hxs]
  · simp [tagsPut, hok, hxs]

/-- C6 witness: the two concrete behaviors at the inputs the claim names. -/
theorem claim_C6_witness :
    tagsPost (TagsField.strv "a,b,c") = Except.ok (some (splitTrim "a,b,c")) ∧
      tagsPut (TagsField.strv "[\"a\",\"b\"]") = Except.ok ["a", "b"] := by
  have hc := claim_C6 "a,b,c" "[\"a\",\"b\"]" (Json.arr [Json.str "a", Json.str "b"])
    ["a", "b"] (by decide) rfl rfl
  exact ⟨hc.1, hc.2.2.2.1⟩

/-- C7: on a successful update the image effect follows the strict priority:
a supplied file replaces the asset; otherwise the deleteImage flag removes it
and clears the flag; otherwise the asset and the stored flag are untouched. -/
theorem claim_C7 {st : DBState} {idParam fresh now : String} {req : PutReq}
    {row : MemRow} {st2 : DBState}
    (h : putRoute st idParam req noFail fresh now = (Resp.okMem row, st2)) :
    (∀ f, req.file = some f →
      st2.images = (st.images.filter fun r => r.memory_id ≠ row.id) ++
        [⟨row.id, base64Encode f.buffer, f.mimetype⟩] ∧ row.has_image = true) ∧
    (req.file = none → req.deleteImage = JsField.strv "true" →
      st2.images = (st.images.filter fun r => r.memory_id ≠ row.id) ∧
        row.has_image = false) ∧
    (req.file = none → req.deleteImage ≠ JsField.strv "true" →
      st2.images = st.images ∧
        row.has_image = ((findMem st row.id).map MemRow.has_image).getD false) := by
  obtain ⟨-, -, -, -, -, -, -, -, hbr⟩ := putTxn_ok (putRoute_ok h)
  refine ⟨?_, ?_, ?_⟩
  · intro f hsf
    rcases hbr with ⟨f2, hsf2, hhi, himgs⟩ | ⟨hnof, -⟩ | ⟨hnof, -⟩
    · rw [hsf] at hsf2
      injection hsf2 with hf2
      rw [← hf2] at himgs
      exact ⟨himgs, hhi⟩
    · rw [hsf] at hnof
      exact absurd hnof (by simp)
    · rw [hsf] at hnof
      exact absurd hnof (by simp)
  · intro hnof hdel
    rcases hbr with ⟨f2, hsf2, -, -⟩ | ⟨-, -, hhi, himgs⟩ | ⟨-, hkeep, -, -⟩
    · rw [hnof] at hsf2
      exact absurd hsf2 (by simp)
    · exact ⟨himgs, hhi⟩
    · exact absurd hdel hkeep
  · intro hnof hkeep
    rcases hbr with ⟨f2, hsf2, -, -⟩ | ⟨-, hdel, -, -⟩ | ⟨-, -, hhi, himgs⟩
    · rw [hnof] at hsf2
      exact absurd hsf2 (by simp)
    · exact absurd hdel hkeep
    · exact ⟨himgs, hhi⟩

/-- C7 witness: uploading a new image on update replaces the asset and sets
the flag. -/
theorem claim_C7_witness :
    wStImg.images = (wStOne.images.filter fun r => r.memory_id ≠ wRowImg.id) ++
        [⟨wRowImg.id, base64Encode wFile.buffer, wFile.mimetype⟩] ∧
      wRowImg.has_image = true :=
  (claim_C7 (show putRoute wStOne wIdA wPutReqImg noFail wFresh wNow =
    (Resp.okMem wRowImg, wStImg) by decide)).1 wFile rfl

/-- C8: deleting an absent id answers 404 and changes nothing; deleting a
present id removes the entry together with its asset, after which Get
answers 404 and the image route has nothing to serve. -/
theorem claim_C8 (st : DBState) (idParam fresh fresh2 : String)
    (hfresh : uuidValidate fresh = true) :
    (hasId st (ensureValidUUID (some idParam) fresh) = false →
      deleteRoute st idParam noFail fresh = (Resp.notFound, st) ∧
        Resp.notFound.status = 404) ∧
    (hasId st (ensureValidUUID (some idParam) fresh) = true →
      ∃ st2, deleteRoute st idParam noFail fresh = (Resp.okDeleted, st2) ∧
        hasId st2 (ensureValidUUID (some idParam) fresh) = false ∧
        getMemoryRoute st2 (ensureValidUUID (some idParam) fresh) fresh2 = Resp.notFound ∧
        getImageRoute st2 (ensureValidUUID (some idParam) fresh) = Resp.notFound) := by
  constructor
  · intro hni
    refine ⟨?_, rfl⟩
    unfold deleteRoute
    rw [deleteTxn_404 hni]
  · intro hy
    refine ⟨(deleteMemory st (ensureValidUUID (some idParam) fresh)).2, ?_, ?_, ?_, ?_⟩
    · unfold deleteRoute
      rw [deleteTxn_commits hy]
    · simp only [deleteMemory, hasId]
      rw [List.any_eq_false]
      intro m hm
      have := (List.mem_filter.mp hm).2
      simpa using this
    · unfold getMemoryRoute
      rw [ensureValidUUID_keeps (ensureValidUUID_valid hfresh)]
      rw [findMem_eq_none]
      simp only [deleteMemory, hasId]
      rw [List.any_eq_false]
      intro m hm
      have := (List.mem_filter.mp hm).2
      simpa using this
    · unfold getImageRoute
      rw [ensureValidUUID_valid hfresh]
      have hfi : findImage (deleteMemory st (ensureValidUUID (some idParam) fresh)).2
          (ensureValidUUID (some idParam) fresh) = none := by
        rw [findImage, List.find?_eq_none]
        intro r hr
        have := (List.mem_filter.mp hr).2
        simpa using this
      rw [hfi]
      rfl

/-- C8 witness: deleting the stored entry removes it and its asset. -/
theorem claim_C8_witness :
    ∃ st2, deleteRoute wStImgPre wIdA noFail wFresh = (Resp.okDeleted, st2) ∧
      hasId st2 (ensureValidUUID (some wIdA) wFresh) = false ∧
      getMemoryRoute st2 (ensureValidUUID (some wIdA) wFresh) wFresh = Resp.notFound ∧
      getImageRoute st2 (ensureValidUUID (some wIdA) wFresh) = Resp.notFound :=
  (claim_C8 wStImgPre wIdA wFresh wFresh (by decide)).2 (by decide)

/-- C9: the image route round-trips storage — an asset saved by Create or
Update is served back as exactly the uploaded bytes under the declared MIME
type; an invalid id yields 400 and a valid id without an asset yields 404. -/
theorem claim_C9 :
    (∀ st req fresh f row st2, Reachable st → uuidValidate fresh = true →
      req.file = some f → (∀ b ∈ f.buffer, b < 256) →
      postRoute st req noFail fresh = (Resp.created row, st2) →
      getImageRoute st2 row.id = Resp.okImage f.buffer f.mimetype) ∧
    (∀ st idParam req fresh now f row st2, uuidValidate fresh = true →
      req.file = some f → (∀ b ∈ f.buffer, b < 256) →
      putRoute st idParam req noFail fresh now = (Resp.okMem row, st2) →
      getImageRoute st2 row.id = Resp.okImage f.buffer f.mimetype) ∧
    (∀ st id, uuidValidate id = false →
      getImageRoute st id = Resp.badRequest ∧ (getImageRoute st id).status = 400) ∧
    (∀ st id, uuidValidate id = true → findImage st id = none →
      getImageRoute st id = Resp.notFound ∧ (getImageRoute st id).status = 404) := by
  refine ⟨?_, ?_, ?_, ?_⟩
  · intro st req fresh f row st2 hreach hfresh hsf hbytes hpost
    obtain ⟨hid, -, hni, -, himgs⟩ := postTxn_ok (postRoute_okTxn hpost)
    rcases himgs with ⟨hnof, -⟩ | ⟨f2, hsf2, happ⟩
    · rw [hsf] at hnof
      exact absurd hnof (by simp)
    rw [hsf] at hsf2
    injection hsf2 with hf2
    rw [← hf2] at happ
    have hvalid : uuidValidate row.id = true := by
      rw [hid]
      exact ensureValidUUID_valid hfresh
    have hFK := (reachable_inv hreach).2.2.1
    have hold : st.images.find? (fun r => r.memory_id = row.id) = none := by
      rw [List.find?_eq_none]
      intro r hr
      obtain ⟨m, hm, hmid⟩ := hFK r hr
      have := hasId_false_iff.mp hni m hm
      simp only [decide_eq_true_eq]
      intro he
      exact this (hmid ▸ he)
    unfold getImageRoute
    rw [hvalid]
    have hfind : findImage st2 row.id =
        some ⟨row.id, base64Encode f.buffer, f.mimetype⟩ := by
      rw [findImage, happ, find?_append_none _ _ _ hold]
      simp
    rw [hfind]
    simp [base64_decode_encode f.buffer hbytes]
  · intro st idParam req fresh now f row st2 hfresh hsf hbytes hput
    obtain ⟨-, -, -, -, -, -, -, -, hbr⟩ := putTxn_ok (putRoute_ok hput)
    rcases hbr with ⟨f2, hsf2, -, himgs⟩ | ⟨hnof, -⟩ | ⟨hnof, -⟩
    · rw [hsf] at hsf2
      injection hsf2 with hf2
      rw [← hf2] at himgs
      have hvalid : uuidValidate row.id = true := by
        obtain ⟨-, hid, -⟩ := putTxn_ok (putRoute_ok hput)
        rw [hid]
        exact ensureValidUUID_valid hfresh
      unfold getImageRoute
      rw [hvalid]
      have hfilter : (st.images.filter fun r => r.memory_id ≠ row.id).find?
          (fun r => r.memory_id = row.id) = none := by
        rw [List.find?_eq_none]
        intro r hr
        have := (List.mem_filter.mp hr).2
        simpa using this
      have hfind : findImage st2 row.id =
          some ⟨row.id, base64Encode f.buffer, f.mimetype⟩ := by
        rw [findImage, himgs, find?_append_none _ _ _ hfilter]
        simp
      rw [hfind]
      simp [base64_decode_encode f.buffer hbytes]
    · rw [hsf] at hnof
      exact absurd hnof (by simp)
    · rw [hsf] at hnof
      exact absurd hnof (by simp)
  · intro st id hbadid
    unfold getImageRoute
    rw [hbadid]
    exact ⟨rfl, rfl⟩
  · intro st id hvalid hnone
    unfold getImageRoute
    rw [hvalid, hnone]
    exact ⟨rfl, rfl⟩

/-- C9 witness: a created image is served back byte-for-byte. -/
theorem claim_C9_witness :
    getImageRoute wStPost wRowPost.id = Resp.okImage wFile.buffer wFile.mimetype :=
  claim_C9.1 DBState.empty wPostReqImg wFresh wFile wRowPost wStPost Reachable.init
    (by decide) rfl (by decide) (by decide)

/-- C10: without a new file, the asset is removed only when deleteImage is
exactly the string true; any other value (the JSON boolean true, the strings
True or 1, or an absent field) takes the branch that preserves the asset and
the stored flag. -/
theorem claim_C10 {st : DBState} {idParam fresh now : String} {req : PutReq}
    {row : MemRow} {st2 : DBState}
    (hnofile : req.file = none)
    (h : putRoute st idParam req noFail fresh now = (Resp.okMem row, st2)) :
    (req.deleteImage = JsField.strv "true" →
      st2.images = (st.images.filter fun r => r.memory_id ≠ row.id) ∧
        row.has_image = false) ∧
    (req.deleteImage ≠ JsField.strv "true" →
      st2.images = st.images ∧
        row.has_image = ((findMem st row.id).map MemRow.has_image).getD false) ∧
    JsField.boolv true ≠ JsField.strv "true" ∧
    JsField.strv "True" ≠ JsField.strv "true" ∧
    JsField.strv "1" ≠ JsField.strv "true" := by
  obtain ⟨-, -, -, -, -, -, -, -, hbr⟩ := putTxn_ok (putRoute_ok h)
  refine ⟨?_, ?_, by decide, by decide, by decide⟩
  · intro hdel
    rcases hbr with ⟨f2, hsf2, -, -⟩ | ⟨-, -, hhi, himgs⟩ | ⟨-, hkeep, -, -⟩
    · rw [hnofile] at hsf2
      exact absurd hsf2 (by simp)
    · exact ⟨himgs, hhi⟩
    · exact absurd hdel hkeep
  · intro hkeep
    rcases hbr with ⟨f2, hsf2, -, -⟩ | ⟨-, hdel, -, -⟩ | ⟨-, -, hhi, himgs⟩
    · rw [hnofile] at hsf2
      exact absurd hsf2 (by simp)
    · exact absurd hdel hkeep
    · exact ⟨himgs, hhi⟩

/-- C10 witness: deleteImage as the JSON boolean true does not delete the
asset — the stored image row and flag survive the update. -/
theorem claim_C10_witness :
    wStKeep.images = wStImgPre.images ∧
      wRowKeep.has_image =
        ((findMem wStImgPre wRowKeep.id).map MemRow.has_image).getD false :=
  (claim_C10 rfl (show putRoute wStImgPre wIdA wPutReqKeep noFail wFresh wNow =
    (Resp.okMem wRowKeep, wStKeep) by decide)).2.1 (by decide)

/-- C1 witness: a malformed id is normalized and Get, Update and Delete all
answer 404 without touching the state. -/
theorem claim_C1_witness :
    getMemoryRoute DBState.empty "not-a-uuid" wFresh = Resp.notFound ∧
      putRoute DBState.empty "not-a-uuid" wPutReqNone noFail wFresh wNow =
        (Resp.notFound, DBState.empty) ∧
      deleteRoute DBState.empty "not-a-uuid" noFail wFresh =
        (Resp.notFound, DBState.empty) := by
  have hc := claim_C1 DBState.empty "not-a-uuid" wFresh wNow wPutReqNone
    (by decide) (by decide) (by decide) rfl
  exact ⟨hc.2.2.1, hc.2.2.2.1, hc.2.2.2.2.1⟩

/-- C2 witness: after one create with an image, the stored flag matches the
stored asset. -/
theorem claim_C2_witness :
    wRowPost.has_image = true ↔
      ∃ r ∈ (postRoute DBState.empty wPostReqImg noFail wFresh).2.images,
        r.memory_id = wRowPost.id :=
  claim_C2 _ (Reachable.post DBState.empty wPostReqImg noFail wFresh
    Reachable.init (by decide)) wRowPost (by decide)

/-- C5 witness: an update that omits every field resets them all to the
defaults, not to the previously stored values. -/
theorem claim_C5_witness :
    wRowNew.title = "" ∧ wRowNew.content = "" ∧ wRowNew.mood = some "happy" ∧
      wRowNew.date = wNow ∧ wRowNew.tags = some [] ∧ wRowNew ∈ wStNew.memories := by
  have hc := claim_C5 (show putRoute wStOne wIdA wPutReqNone noFail wFresh wNow =
    (Resp.okMem wRowNew, wStNew) by decide)
  exact ⟨hc.1 rfl, hc.2.1 rfl, hc.2.2.1 rfl, hc.2.2.2.1 rfl, hc.2.2.2.2.1 rfl,
    hc.2.2.2.2.2⟩

end Diary
